import Mathlib

/-!
Verification development for the kyungjae-lee/freertos repository.

The repository consists of STM32 demo applications that call into the
FreeRTOS kernel.  The kernel sources themselves (queue.c, tasks.c) are not
part of the repository snapshot under src/; only the demo callers are.
Following the specification (spec.md), the kernel primitives are modelled
here from the spec's words, and the demo applications' main functions are
embedded directly from their C sources.
-/

/- ----------------------------------------------------------------------
   Queue primitive, modelled from the spec (section 4.2 and section 3).
   ---------------------------------------------------------------------- -/

/-- Modelled from the spec: the kernel Queue primitive (spec section 3 and 4.2);
the FreeRTOS queue.c implementation is missing from src/.  A Queue is a
fixed-capacity FIFO; items is the buffer contents, oldest first.  The count of
occupied slots is the length of items. -/
structure Queue (α : Type) where
  capacity : Nat
  items : List α
deriving Repr, DecidableEq

/-- Modelled from the spec: count of occupied slots of a Queue. -/
def Queue.count {α : Type} (q : Queue α) : Nat :=
  q.items.length

/-- Modelled from the spec: a Queue as created, with fixed capacity and no
occupied slots. -/
def Queue.emptyQ (α : Type) (c : Nat) : Queue α :=
  ⟨c, []⟩

/-- Modelled from the spec: outcome of a send.  Success means the item was
copied in; full means the non-blocking call (waitTicks = 0) declined
immediately; blocked means the caller blocks on the queue (waitTicks > 0). -/
inductive SendResult where
  | success
  | full
  | blocked
deriving Repr, DecidableEq

/-- Modelled from the spec: send(item, waitTicks, toFront) (spec section 4.2).
If count < capacity the item is copied in (at head if toFront, else tail) and
the call succeeds immediately.  If full and waitTicks = 0 it returns Full
immediately without blocking; if full and waitTicks > 0 the caller blocks.
The second component is the queue after the call (unchanged unless success). -/
def Queue.send {α : Type} (q : Queue α) (a : α) (waitTicks : Nat)
    (toFront : Bool) : SendResult × Queue α :=
  if q.count < q.capacity then
    (.success,
      { q with items := if toFront then a :: q.items else q.items ++ [a] })
  else if waitTicks = 0 then
    (.full, q)
  else
    (.blocked, q)

/-- Modelled from the spec: outcome of a receive.  Success carries the oldest
item; empty means the non-blocking call declined immediately; blocked means
the caller blocks on the queue. -/
inductive RecvResult (α : Type) where
  | success (a : α)
  | empty
  | blocked
deriving Repr, DecidableEq

/-- Modelled from the spec: receive(waitTicks) (spec section 4.2).  If
count > 0 the oldest item is copied out and count decremented; if empty and
waitTicks = 0 it returns Empty immediately; if empty and waitTicks > 0 the
caller blocks.  The second component is the queue after the call. -/
def Queue.receive {α : Type} (q : Queue α) (waitTicks : Nat) :
    RecvResult α × Queue α :=
  match q.items with
  | a :: rest => (.success a, { q with items := rest })
  | [] =>
    if waitTicks = 0 then (.empty, q) else (.blocked, q)

/-- Tells whether a send outcome is a blocking or declining one. -/
def SendResult.declinedOrBlocked : SendResult → Bool
  | .success => false
  | .full => true
  | .blocked => true

/-- Tells whether a receive outcome is a blocking or declining one. -/
def RecvResult.declinedOrBlocked {α : Type} : RecvResult α → Bool
  | .success _ => false
  | .empty => true
  | .blocked => true

/-- An abstract operation on a queue: a send or a receive call. -/
inductive QOp (α : Type) where
  | sendOp (a : α) (waitTicks : Nat) (toFront : Bool)
  | recvOp (waitTicks : Nat)

/-- Applies one operation to a queue, keeping the resulting queue state
(declined or blocking calls leave the queue unchanged). -/
def applyOp {α : Type} (q : Queue α) : QOp α → Queue α
  | .sendOp a w tf => (q.send a w tf).2
  | .recvOp w => (q.receive w).2

/-- Runs a sequence of operations on a queue. -/
def runOps {α : Type} (q : Queue α) (ops : List (QOp α)) : Queue α :=
  ops.foldl applyOp q

theorem Queue.send_capacity {α : Type} (q : Queue α) (a : α) (w : Nat)
    (tf : Bool) : (q.send a w tf).2.capacity = q.capacity := by
  unfold Queue.send
  split
  · rfl
  · split <;> rfl

theorem Queue.receive_capacity {α : Type} (q : Queue α) (w : Nat) :
    (q.receive w).2.capacity = q.capacity := by
  unfold Queue.receive
  split
  · rfl
  · split <;> rfl

theorem Queue.send_count_le {α : Type} (q : Queue α) (a : α) (w : Nat)
    (tf : Bool) (h : q.count ≤ q.capacity) :
    (q.send a w tf).2.count ≤ (q.send a w tf).2.capacity := by
  unfold Queue.send
  split
  · rename_i hlt
    cases tf <;> simp [Queue.count] at hlt ⊢ <;> omega
  · split <;> exact h

theorem Queue.receive_count_le {α : Type} (q : Queue α) (w : Nat)
    (h : q.count ≤ q.capacity) :
    (q.receive w).2.count ≤ (q.receive w).2.capacity := by
  unfold Queue.receive
  split
  · rename_i a rest heq
    simp [Queue.count, heq] at h ⊢
    omega
  · split <;> exact h

theorem applyOp_count_le {α : Type} (q : Queue α) (op : QOp α)
    (h : q.count ≤ q.capacity) :
    (applyOp q op).count ≤ (applyOp q op).capacity := by
  cases op with
  | sendOp a w tf => exact Queue.send_count_le q a w tf h
  | recvOp w => exact Queue.receive_count_le q w h

theorem applyOp_capacity {α : Type} (q : Queue α) (op : QOp α) :
    (applyOp q op).capacity = q.capacity := by
  cases op with
  | sendOp a w tf => exact Queue.send_capacity q a w tf
  | recvOp w => exact Queue.receive_capacity q w

theorem runOps_inv {α : Type} (ops : List (QOp α)) (q : Queue α)
    (h : q.count ≤ q.capacity) :
    (runOps q ops).count ≤ (runOps q ops).capacity ∧
      (runOps q ops).capacity = q.capacity := by
  induction ops generalizing q with
  | nil => exact ⟨h, rfl⟩
  | cons op rest ih =>
    have h1 := applyOp_count_le q op h
    have h2 := applyOp_capacity q op
    have := ih (applyOp q op) h1
    simp only [runOps, List.foldl] at this ⊢
    exact ⟨this.1, this.2.trans h2⟩

theorem Queue.send_declines_iff {α : Type} (q : Queue α) (a : α) (w : Nat)
    (tf : Bool) (h : q.count ≤ q.capacity) :
    (q.send a w tf).1.declinedOrBlocked = true ↔ q.count = q.capacity := by
  unfold Queue.send
  split
  · rename_i hlt
    simp [SendResult.declinedOrBlocked]
    omega
  · rename_i hge
    split <;> simp [SendResult.declinedOrBlocked] <;> omega

theorem Queue.receive_declines_iff {α : Type} (q : Queue α) (w : Nat) :
    (q.receive w).1.declinedOrBlocked = true ↔ q.count = 0 := by
  unfold Queue.receive
  split
  · rename_i a rest heq
    simp [RecvResult.declinedOrBlocked, Queue.count, heq]
  · rename_i heq
    split <;> simp [RecvResult.declinedOrBlocked, Queue.count, heq]

/-- C1: for every Queue created with capacity C and every sequence of send and
receive operations on it, the count of occupied slots stays in [0, C] at every
point; a send blocks or declines exactly when count equals C, and a receive
blocks or declines exactly when count equals 0. -/
theorem queue_count_invariant_spec {α : Type} (C : Nat) (ops : List (QOp α)) :
    0 ≤ (runOps (Queue.emptyQ α C) ops).count ∧
    (runOps (Queue.emptyQ α C) ops).count ≤ C ∧
    (∀ (a : α) (w : Nat) (tf : Bool),
      ((runOps (Queue.emptyQ α C) ops).send a w tf).1.declinedOrBlocked = true
        ↔ (runOps (Queue.emptyQ α C) ops).count = C) ∧
    (∀ w : Nat,
      ((runOps (Queue.emptyQ α C) ops).receive w).1.declinedOrBlocked = true
        ↔ (runOps (Queue.emptyQ α C) ops).count = 0) := by
  have h0 : (Queue.emptyQ α C).count ≤ (Queue.emptyQ α C).capacity := by
    simp [Queue.emptyQ, Queue.count]
  obtain ⟨hle, hcap⟩ := runOps_inv ops (Queue.emptyQ α C) h0
  have hcapC : (runOps (Queue.emptyQ α C) ops).capacity = C := by
    simpa [Queue.emptyQ] using hcap
  refine ⟨Nat.zero_le _, by omega, ?_, ?_⟩
  · intro a w tf
    rw [Queue.send_declines_iff _ a w tf hle, hcapC]
  · intro w
    exact Queue.receive_declines_iff _ w

/- ----------------------------------------------------------------------
   C3: FIFO ordering of sends and receives.
   ---------------------------------------------------------------------- -/

/-- Sends a list of items to a queue one after the other, never using
toFront and never blocking; the Bool tells whether every send succeeded.
Sends stop at the first failure. -/
def sendAll {α : Type} (q : Queue α) : List α → Bool × Queue α
  | [] => (true, q)
  | a :: rest =>
    match q.send a 0 false with
    | (.success, q1) => sendAll q1 rest
    | (_, q1) => (false, q1)

/-- Receives n items from a queue one after the other without blocking,
collecting the received items in call order; stops at the first failure. -/
def receiveN {α : Type} (q : Queue α) : Nat → List α × Queue α
  | 0 => ([], q)
  | n + 1 =>
    match q.receive 0 with
    | (.success a, q1) =>
      let r := receiveN q1 n
      (a :: r.1, r.2)
    | (_, q1) => ([], q1)

theorem sendAll_eq {α : Type} (xs : List α) (q : Queue α)
    (h : q.count + xs.length ≤ q.capacity) :
    sendAll q xs = (true, ⟨q.capacity, q.items ++ xs⟩) := by
  induction xs generalizing q with
  | nil => simp [sendAll]
  | cons a rest ih =>
    have hlt : q.count < q.capacity := by
      simp at h
      omega
    have hsend : q.send a 0 false =
        (.success, { q with items := q.items ++ [a] }) := by
      simp [Queue.send, hlt]
    have hmid : ({ q with items := q.items ++ [a] } : Queue α).count
        + rest.length ≤ q.capacity := by
      simp [Queue.count] at h ⊢
      omega
    calc sendAll q (a :: rest)
        = sendAll { q with items := q.items ++ [a] } rest := by
          simp [sendAll, hsend]
      _ = (true, ⟨q.capacity, (q.items ++ [a]) ++ rest⟩) := ih _ hmid
      _ = (true, ⟨q.capacity, q.items ++ a :: rest⟩) := by
          simp

theorem receiveN_eq {α : Type} (n : Nat) (q : Queue α)
    (h : n ≤ q.count) :
    receiveN q n = (q.items.take n, ⟨q.capacity, q.items.drop n⟩) := by
  induction n generalizing q with
  | zero => simp [receiveN]
  | succ m ih =>
    match hq : q.items with
    | [] => simp [Queue.count, hq] at h
    | a :: rest =>
      have hrecv : q.receive 0 = (.success a, { q with items := rest }) := by
        simp [Queue.receive, hq]
      have hm : m ≤ ({ q with items := rest } : Queue α).count := by
        simp [Queue.count, hq] at h ⊢
        omega
      simp [receiveN, hrecv, ih _ hm, hq]

/-- C3: for every Queue on which toFront is never used (starting empty, with
enough capacity for the items), after the sends of xs all succeed, the items
returned by subsequent successful receives are exactly the items sent, in the
same order as the sends completed. -/
theorem queue_fifo_spec {α : Type} (C : Nat) (xs : List α)
    (h : xs.length ≤ C) :
    (sendAll (Queue.emptyQ α C) xs).1 = true ∧
    (receiveN (sendAll (Queue.emptyQ α C) xs).2 xs.length).1 = xs := by
  have h0 : (Queue.emptyQ α C).count + xs.length ≤ (Queue.emptyQ α C).capacity := by
    simpa [Queue.emptyQ, Queue.count] using h
  have hs := sendAll_eq xs (Queue.emptyQ α C) h0
  rw [hs]
  refine ⟨rfl, ?_⟩
  show (receiveN (⟨(Queue.emptyQ α C).capacity,
      (Queue.emptyQ α C).items ++ xs⟩ : Queue α) xs.length).1 = xs
  have hr : xs.length ≤ (⟨(Queue.emptyQ α C).capacity,
      (Queue.emptyQ α C).items ++ xs⟩ : Queue α).count := by
    simp [Queue.emptyQ, Queue.count]
  rw [receiveN_eq xs.length _ hr]
  simp [Queue.emptyQ]

/-- C3 witness: the spec scenario with capacity 3 and items 1, 2, 3. -/
theorem queue_fifo_spec_witness :
    ([1, 2, 3] : List Nat).length ≤ 3 ∧
    ((sendAll (Queue.emptyQ Nat 3) [1, 2, 3]).1 = true ∧
      (receiveN (sendAll (Queue.emptyQ Nat 3) [1, 2, 3]).2 3).1 = [1, 2, 3]) :=
  ⟨by decide, queue_fifo_spec 3 [1, 2, 3] (by decide)⟩

/- ----------------------------------------------------------------------
   C4: non-blocking send on a full queue.
   ---------------------------------------------------------------------- -/

/-- C4: for every Queue whose count equals its capacity, a send called with
waitTicks = 0 returns the Full error immediately without blocking, and the
queue's contents and count are unchanged. -/
theorem queue_full_send_spec {α : Type} (q : Queue α) (a : α) (tf : Bool)
    (h : q.count = q.capacity) :
    (q.send a 0 tf).1 = SendResult.full ∧ (q.send a 0 tf).2 = q := by
  have hnlt : ¬ q.count < q.capacity := by omega
  simp [Queue.send, hnlt]

/-- C4 witness: a full queue of capacity 2. -/
theorem queue_full_send_spec_witness :
    (Queue.mk 2 [5, 7] : Queue Nat).count = (Queue.mk 2 [5, 7] : Queue Nat).capacity ∧
    (((Queue.mk 2 [5, 7] : Queue Nat).send 9 0 false).1 = SendResult.full ∧
      ((Queue.mk 2 [5, 7] : Queue Nat).send 9 0 false).2 = Queue.mk 2 [5, 7]) :=
  ⟨by decide, queue_full_send_spec (Queue.mk 2 [5, 7]) 9 false (by decide)⟩

/- ----------------------------------------------------------------------
   C5: timeout bound of a blocking receive (spec sections 4.1 tick and 4.2).
   ---------------------------------------------------------------------- -/

/-- Modelled from the spec: the outcome a blocked receive call eventually
returns with, either the received item or Timeout. -/
inductive WaitOutcome (α : Type) where
  | gotItem (a : α)
  | timeout
deriving Repr, DecidableEq

/-- Modelled from the spec: the state of one receive call that blocked on a
queue, as recorded on the Delay/Block List (spec section 3): the queue waited
on, the current tick, the wake tick, and the outcome once the call returned
(none while still blocked). -/
structure BlockedRecv (α : Type) where
  q : Queue α
  now : Nat
  wakeTick : Nat
  outcome : Option (WaitOutcome α)
deriving Repr, DecidableEq

/-- Modelled from the spec: a receive(waitTicks = k) that found its queue
empty at tick startTick and blocked, with wake tick startTick + k. -/
def startRecvWait {α : Type} (q : Queue α) (startTick k : Nat) :
    BlockedRecv α :=
  ⟨q, startTick, startTick + k, none⟩

/-- Modelled from the spec: one tick() of the Scheduler Core as seen by a
blocked receive (spec section 4.1).  The tick counter advances; if the call
already returned nothing changes; if an item is available the waiter is woken
with it; otherwise, once the wake tick has elapsed, the blocking call returns
a Timeout result. -/
def recvTick {α : Type} (s : BlockedRecv α) : BlockedRecv α :=
  match s.outcome with
  | some _ => { s with now := s.now + 1 }
  | none =>
    match s.q.receive 0 with
    | (.success a, q1) =>
      { q := q1, now := s.now + 1, wakeTick := s.wakeTick,
        outcome := some (.gotItem a) }
    | _ =>
      if s.wakeTick ≤ s.now + 1 then
        { s with now := s.now + 1, outcome := some .timeout }
      else
        { s with now := s.now + 1 }

/-- Runs n ticks over a blocked receive. -/
def recvTicks {α : Type} (s : BlockedRecv α) : Nat → BlockedRecv α
  | 0 => s
  | n + 1 => recvTick (recvTicks s n)

theorem recvTicks_empty {α : Type} (q : Queue α) (t0 k : Nat)
    (hq : q.count = 0) (hk : 0 < k) (n : Nat) :
    recvTicks (startRecvWait q t0 k) n =
      ⟨q, t0 + n, t0 + k, if k ≤ n then some .timeout else none⟩ := by
  have hitems : q.items = [] := List.length_eq_zero.mp hq
  have hrecv : q.receive 0 = (.empty, q) := by
    simp [Queue.receive, hitems]
  induction n with
  | zero =>
    have hk0 : ¬ k ≤ 0 := by omega
    simp [recvTicks, startRecvWait, hk0]
  | succ m ih =>
    rw [recvTicks, ih]
    by_cases hm : k ≤ m
    · have hk1 : k ≤ m + 1 := by omega
      simp only [recvTick, hm, if_true, hk1]
      rfl
    · have hout : (if k ≤ m then some (WaitOutcome.timeout (α := α)) else none)
          = none := by
        simp [hm]
      rw [hout]
      by_cases hm1 : k ≤ m + 1
      · have hwake : t0 + k ≤ t0 + m + 1 := by omega
        simp only [recvTick, hrecv, hwake, if_true, hm1]
        rfl
      · have hwake : ¬ t0 + k ≤ t0 + m + 1 := by omega
        simp only [recvTick, hrecv, hwake, if_false, hm1]
        rfl

/-- C5: for every K > 0, a receive(waitTicks = K) that blocked at tick t0 on a
queue that stays empty for the whole wait returns Timeout, and it does so
exactly once K tick periods have elapsed since the call blocked, never
before. -/
theorem receive_timeout_bound_spec {α : Type} (q : Queue α) (t0 K n : Nat)
    (hq : q.count = 0) (hK : 0 < K) :
    (recvTicks (startRecvWait q t0 K) n).outcome
        = some WaitOutcome.timeout ↔ K ≤ n := by
  rw [recvTicks_empty q t0 K hq hK n]
  by_cases h : K ≤ n <;> simp [h]

/-- C5 witness: a wait of 3 ticks on an empty queue of capacity 5 starting at
tick 10 has timed out after 3 ticks (and, by the same theorem, not after 2). -/
theorem receive_timeout_bound_spec_witness :
    (Queue.emptyQ Nat 5).count = 0 ∧ 0 < 3 ∧
    ((recvTicks (startRecvWait (Queue.emptyQ Nat 5) 10 3) 3).outcome
        = some WaitOutcome.timeout ↔ (3 : Nat) ≤ 3) :=
  ⟨by decide, by decide,
    receive_timeout_bound_spec (Queue.emptyQ Nat 5) 10 3 3 (by decide) (by decide)⟩

/- ----------------------------------------------------------------------
   Scheduler Core, modelled from the spec (sections 3, 4.1).
   ---------------------------------------------------------------------- -/

/-- Modelled from the spec: a schedulable task as the Scheduler Core sees it
(the FreeRTOS tasks.c implementation is missing from src/): an identity, a
priority (higher = more eligible), and an arrival stamp.  The stamp records
the order of entry into the Ready Set: enqueues assign strictly increasing
stamps, so within one priority level the ready sequence ordered by stamp is
the FIFO arrival order of the spec (section 3, Ready Set). -/
structure RTask where
  tid : Nat
  prio : Nat
  stamp : Nat
deriving Repr, DecidableEq

/-- Modelled from the spec: the implicit idle task at the lowest possible
priority (spec section 4.1); application tasks have priority at least 1. -/
def idleTask : RTask := ⟨0, 0, 0⟩

/-- Modelled from the spec: the Scheduler Core state: the Running slot, the
Ready Set (kept as one arrival-ordered list; within each priority level the
sublist at that level is the FIFO ready sequence of the spec), the Block
List, and the next arrival stamp to hand out. -/
structure Sched where
  running : RTask
  ready : List RTask
  blocked : List RTask
  nextStamp : Nat
deriving Repr, DecidableEq

/-- Highest priority present in a list of tasks (0 when empty). -/
def maxPrioList : List RTask → Nat
  | [] => 0
  | t :: ts => max t.prio (maxPrioList ts)

/-- Extracts the first task in list order whose priority equals m, returning
it together with the remaining list. -/
def extractFirstMax (m : Nat) : List RTask → Option (RTask × List RTask)
  | [] => none
  | t :: ts =>
    if t.prio = m then some (t, ts)
    else
      match extractFirstMax m ts with
      | some (u, rest) => some (u, t :: rest)
      | none => none

/-- Modelled from the spec: selection of the next task to run (spec section
4.1): the earliest-arrived Ready task of maximum priority. -/
def selectNext (l : List RTask) : Option (RTask × List RTask) :=
  extractFirstMax (maxPrioList l) l

/-- Modelled from the spec: dispatch fills the Running slot with the selected
Ready task, or with the idle task when no task is Ready. -/
def dispatch (s : Sched) : Sched :=
  match selectNext s.ready with
  | some (t, rest) => { s with running := t, ready := rest }
  | none => { s with running := idleTask }

/-- Modelled from the spec: a task enters the Ready Set at the tail of its
priority's sequence; the fresh stamp records its arrival order. -/
def enqueueReady (s : Sched) (t : RTask) : Sched :=
  { s with ready := s.ready ++ [{ t with stamp := s.nextStamp }],
           nextStamp := s.nextStamp + 1 }

/-- Modelled from the spec: a task becoming Ready (creation or wake-up).  If
its priority is higher than the Running task's it preempts immediately: the
preempted task re-enters the Ready Set at the tail of its priority's sequence
(the idle task never enters the Ready Set) and a new Running task is
selected.  Otherwise the task just joins the Ready Set. -/
def wakeTask (s : Sched) (t : RTask) : Sched :=
  if s.running.prio < t.prio then
    if s.running = idleTask then dispatch (enqueueReady s t)
    else dispatch (enqueueReady (enqueueReady s t) s.running)
  else enqueueReady s t

/-- Modelled from the spec: yield() re-inserts the calling task at the tail
of its priority's Ready sequence and selects a new Running task. -/
def yieldStep (s : Sched) : Sched :=
  if s.running = idleTask then dispatch s
  else dispatch (enqueueReady s s.running)

/-- Modelled from the spec: the Running task blocks (delay or wait on a
primitive): it moves to the Block List and a new Running task is selected;
the idle task never blocks. -/
def blockStep (s : Sched) : Sched :=
  if s.running = idleTask then s
  else dispatch { s with blocked := s.running :: s.blocked }

/-- Modelled from the spec: the initial scheduler state: the idle task runs
and no task is Ready. -/
def initSched : Sched := ⟨idleTask, [], [], 1⟩

/-- Reachable scheduler states: those produced from the initial state by any
sequence of wake-ups (with application priority at least 1), yields and
blocks. -/
inductive Reachable : Sched → Prop where
  | init : Reachable initSched
  | wakeR {s : Sched} {t : RTask} :
      Reachable s → 1 ≤ t.prio → Reachable (wakeTask s t)
  | yieldR {s : Sched} : Reachable s → Reachable (yieldStep s)
  | blockR {s : Sched} : Reachable s → Reachable (blockStep s)

/-- The Running task has priority at least that of every Ready task. -/
def readyBelowRunning (s : Sched) : Prop :=
  ∀ t ∈ s.ready, t.prio ≤ s.running.prio

/-- The idle task runs only when no task is Ready. -/
def idleOnlyWhenNoReady (s : Sched) : Prop :=
  s.running = idleTask → s.ready = []

/-- The Ready list is in strictly increasing stamp order, i.e. in arrival
order. -/
def stampsOrdered (s : Sched) : Prop :=
  s.ready.Pairwise (fun a b => a.stamp < b.stamp)

/-- Every Ready stamp is below the next stamp to be handed out. -/
def stampsBounded (s : Sched) : Prop :=
  ∀ t ∈ s.ready, t.stamp < s.nextStamp

/-- Every Ready task has an application priority (at least 1). -/
def readyPriosPos (s : Sched) : Prop :=
  ∀ t ∈ s.ready, 1 ≤ t.prio

/-- The Running slot holds the idle task or an application task. -/
def runningOk (s : Sched) : Prop :=
  s.running = idleTask ∨ 1 ≤ s.running.prio

/-- Full scheduler invariant. -/
def schedInv (s : Sched) : Prop :=
  readyBelowRunning s ∧ idleOnlyWhenNoReady s ∧ stampsOrdered s ∧
    stampsBounded s ∧ readyPriosPos s ∧ runningOk s

theorem maxPrioList_ge {l : List RTask} {t : RTask} (h : t ∈ l) :
    t.prio ≤ maxPrioList l := by
  induction l with
  | nil => cases h
  | cons a ts ih =>
    rcases List.mem_cons.mp h with rfl | h2
    · simp only [maxPrioList]
      omega
    · have := ih h2
      simp only [maxPrioList]
      omega

theorem exists_prio_eq_max {l : List RTask} (h : l ≠ []) :
    ∃ t ∈ l, t.prio = maxPrioList l := by
  induction l with
  | nil => cases h rfl
  | cons a ts ih =>
    by_cases hts : ts = []
    · subst hts
      exact ⟨a, by simp, by simp [maxPrioList]⟩
    · obtain ⟨t, ht, htp⟩ := ih hts
      by_cases hc : maxPrioList ts ≤ a.prio
      · refine ⟨a, by simp, ?_⟩
        simp only [maxPrioList]
        omega
      · refine ⟨t, by simp [ht], ?_⟩
        simp only [maxPrioList]
        omega

theorem extractFirstMax_of_mem {m : Nat} {l : List RTask}
    (h : ∃ t ∈ l, t.prio = m) :
    ∃ u rest, extractFirstMax m l = some (u, rest) := by
  induction l with
  | nil => simp at h
  | cons a ts ih =>
    by_cases ha : a.prio = m
    · exact ⟨a, ts, by rw [extractFirstMax, if_pos ha]⟩
    · obtain ⟨t, ht, htm⟩ := h
      rcases List.mem_cons.mp ht with rfl | hts
      · exact absurd htm ha
      · obtain ⟨u, rest, hur⟩ := ih ⟨t, hts, htm⟩
        exact ⟨u, a :: rest, by rw [extractFirstMax, if_neg ha, hur]⟩

theorem extractFirstMax_spec {m : Nat} {l rest : List RTask} {u : RTask}
    (h : extractFirstMax m l = some (u, rest)) :
    u ∈ l ∧ u.prio = m ∧ rest.Sublist l := by
  induction l generalizing rest u with
  | nil => simp [extractFirstMax] at h
  | cons a ts ih =>
    rw [extractFirstMax] at h
    by_cases ha : a.prio = m
    · rw [if_pos ha] at h
      simp at h
      obtain ⟨rfl, rfl⟩ := h
      exact ⟨List.mem_cons_self a ts, ha,
        List.Sublist.cons _ (List.Sublist.refl _)⟩
    · rw [if_neg ha] at h
      cases hrec : extractFirstMax m ts with
      | none =>
        rw [hrec] at h
        cases h
      | some pr =>
        obtain ⟨v, rest2⟩ := pr
        rw [hrec] at h
        simp at h
        obtain ⟨rfl, rfl⟩ := h
        obtain ⟨hv, hvm, hsub⟩ := ih hrec
        exact ⟨List.mem_cons_of_mem _ hv, hvm, List.Sublist.cons₂ _ hsub⟩

theorem extractFirstMax_keeps {m : Nat} {l rest : List RTask} {u v : RTask}
    (h : extractFirstMax m l = some (u, rest)) (hv : v ∈ l)
    (hvm : v.prio ≠ m) : v ∈ rest := by
  induction l generalizing rest u with
  | nil => cases hv
  | cons a ts ih =>
    rw [extractFirstMax] at h
    by_cases ha : a.prio = m
    · rw [if_pos ha] at h
      simp at h
      obtain ⟨rfl, rfl⟩ := h
      rcases List.mem_cons.mp hv with rfl | hts
      · exact absurd ha hvm
      · exact hts
    · rw [if_neg ha] at h
      cases hrec : extractFirstMax m ts with
      | none =>
        rw [hrec] at h
        cases h
      | some pr =>
        obtain ⟨w, rest2⟩ := pr
        rw [hrec] at h
        simp at h
        obtain ⟨rfl, rfl⟩ := h
        rcases List.mem_cons.mp hv with rfl | hts
        · exact List.mem_cons_self _ _
        · exact List.mem_cons_of_mem _ (ih hrec hts)

theorem extractFirstMax_first {m : Nat} {l rest : List RTask} {u v : RTask}
    (hp : l.Pairwise (fun a b => a.stamp < b.stamp))
    (h : extractFirstMax m l = some (u, rest))
    (hv : v ∈ l) (hvm : v.prio = u.prio) :
    v = u ∨ u.stamp < v.stamp := by
  induction l generalizing rest u with
  | nil => cases hv
  | cons a ts ih =>
    rw [extractFirstMax] at h
    by_cases ha : a.prio = m
    · rw [if_pos ha] at h
      simp at h
      obtain ⟨rfl, rfl⟩ := h
      rcases List.mem_cons.mp hv with rfl | hts
      · exact Or.inl rfl
      · exact Or.inr ((List.pairwise_cons.mp hp).1 v hts)
    · rw [if_neg ha] at h
      cases hrec : extractFirstMax m ts with
      | none =>
        rw [hrec] at h
        cases h
      | some pr =>
        obtain ⟨w, rest2⟩ := pr
        rw [hrec] at h
        simp at h
        obtain ⟨rfl, rfl⟩ := h
        have hum : w.prio = m := (extractFirstMax_spec hrec).2.1
        rcases List.mem_cons.mp hv with rfl | hts
        · exact absurd (hvm.trans hum) ha
        · exact ih (List.pairwise_cons.mp hp).2 hrec hts hvm

theorem dispatch_inv {s : Sched} (h1 : stampsOrdered s) (h2 : stampsBounded s)
    (h3 : readyPriosPos s) : schedInv (dispatch s) := by
  rcases hsel : selectNext s.ready with _ | ⟨u, rest⟩
  · have hnil : s.ready = [] := by
      by_contra hne
      obtain ⟨t, ht, htm⟩ := exists_prio_eq_max hne
      obtain ⟨u, rest, hu⟩ := extractFirstMax_of_mem ⟨t, ht, htm⟩
      rw [selectNext, hu] at hsel
      cases hsel
    simp only [dispatch, hsel]
    refine ⟨?_, ?_, ?_, ?_, ?_, Or.inl rfl⟩ <;>
      simp [readyBelowRunning, idleOnlyWhenNoReady, stampsOrdered,
        stampsBounded, readyPriosPos, hnil]
  · rw [selectNext] at hsel
    obtain ⟨hmem, hum, hsub⟩ := extractFirstMax_spec hsel
    have hu1 : 1 ≤ u.prio := h3 u hmem
    simp only [dispatch, selectNext, hsel]
    refine ⟨?_, ?_, ?_, ?_, ?_, Or.inr hu1⟩
    · intro v hv
      have : v ∈ s.ready := hsub.subset hv
      calc v.prio ≤ maxPrioList s.ready := maxPrioList_ge this
        _ = u.prio := hum.symm
    · intro hidle
      exfalso
      have hui : u = idleTask := hidle
      rw [hui] at hu1
      exact absurd hu1 (by decide)
    · exact List.Pairwise.sublist hsub h1
    · intro v hv
      exact h2 v (hsub.subset hv)
    · intro v hv
      exact h3 v (hsub.subset hv)

theorem enqueueReady_pre {s : Sched} {t : RTask} (h1 : stampsOrdered s)
    (h2 : stampsBounded s) (h3 : readyPriosPos s) (ht : 1 ≤ t.prio) :
    stampsOrdered (enqueueReady s t) ∧ stampsBounded (enqueueReady s t) ∧
      readyPriosPos (enqueueReady s t) := by
  refine ⟨?_, ?_, ?_⟩
  · simp only [stampsOrdered, enqueueReady]
    rw [List.pairwise_append]
    refine ⟨h1, by simp, ?_⟩
    intro a ha b hb
    simp at hb
    subst hb
    exact h2 a ha
  · intro v hv
    simp only [enqueueReady] at hv ⊢
    simp at hv
    rcases hv with hv | rfl
    · have := h2 v hv
      omega
    · simp
  · intro v hv
    simp only [enqueueReady] at hv
    simp at hv
    rcases hv with hv | rfl
    · exact h3 v hv
    · exact ht

theorem enqueueReady_running {s : Sched} {t : RTask} :
    (enqueueReady s t).running = s.running := rfl

theorem wakeTask_inv {s : Sched} {t : RTask} (h : schedInv s)
    (ht : 1 ≤ t.prio) : schedInv (wakeTask s t) := by
  obtain ⟨hrb, hio, hso, hsb, hrp, hro⟩ := h
  unfold wakeTask
  by_cases hp : s.running.prio < t.prio
  · rw [if_pos hp]
    by_cases hid : s.running = idleTask
    · rw [if_pos hid]
      obtain ⟨o1, b1, p1⟩ := enqueueReady_pre hso hsb hrp ht
      exact dispatch_inv o1 b1 p1
    · rw [if_neg hid]
      have hr1 : 1 ≤ s.running.prio := hro.resolve_left hid
      obtain ⟨o1, b1, p1⟩ := enqueueReady_pre hso hsb hrp ht
      obtain ⟨o2, b2, p2⟩ := enqueueReady_pre o1 b1 p1 (t := s.running) hr1
      exact dispatch_inv o2 b2 p2
  · rw [if_neg hp]
    obtain ⟨o1, b1, p1⟩ := enqueueReady_pre hso hsb hrp ht
    refine ⟨?_, ?_, o1, b1, p1, ?_⟩
    · intro v hv
      simp only [enqueueReady] at hv
      simp at hv
      rw [enqueueReady_running]
      rcases hv with hv | rfl
      · exact hrb v hv
      · show t.prio ≤ s.running.prio
        omega
    · intro hidle
      rw [enqueueReady_running] at hidle
      exfalso
      have : s.running.prio = 0 := by rw [hidle]; rfl
      omega
    · rw [runningOk, enqueueReady_running]
      exact hro

theorem yieldStep_inv {s : Sched} (h : schedInv s) : schedInv (yieldStep s) := by
  obtain ⟨hrb, hio, hso, hsb, hrp, hro⟩ := h
  unfold yieldStep
  by_cases hid : s.running = idleTask
  · rw [if_pos hid]
    exact dispatch_inv hso hsb hrp
  · rw [if_neg hid]
    have hr1 : 1 ≤ s.running.prio := hro.resolve_left hid
    obtain ⟨o1, b1, p1⟩ := enqueueReady_pre hso hsb hrp (t := s.running) hr1
    exact dispatch_inv o1 b1 p1

theorem blockStep_inv {s : Sched} (h : schedInv s) : schedInv (blockStep s) := by
  obtain ⟨hrb, hio, hso, hsb, hrp, hro⟩ := h
  unfold blockStep
  by_cases hid : s.running = idleTask
  · rw [if_pos hid]
    exact ⟨hrb, hio, hso, hsb, hrp, hro⟩
  · rw [if_neg hid]
    have o1 : stampsOrdered { s with blocked := s.running :: s.blocked } := hso
    have b1 : stampsBounded { s with blocked := s.running :: s.blocked } := hsb
    have p1 : readyPriosPos { s with blocked := s.running :: s.blocked } := hrp
    exact dispatch_inv o1 b1 p1

theorem reachable_schedInv {s : Sched} (h : Reachable s) : schedInv s := by
  induction h with
  | init =>
    refine ⟨?_, ?_, ?_, ?_, ?_, Or.inl rfl⟩ <;>
      simp [initSched, readyBelowRunning, idleOnlyWhenNoReady, stampsOrdered,
        stampsBounded, readyPriosPos]
  | wakeR _ ht ih => exact wakeTask_inv ih ht
  | yieldR _ ih => exact yieldStep_inv ih
  | blockR _ ih => exact blockStep_inv ih

/-- C2: in every reachable scheduler state, the task in the Running slot is
one of maximum priority among all Ready tasks (or the lowest-priority idle
task, which runs only when no other task is Ready), and among Ready tasks of
equal maximum priority the FIFO arrival order is preserved across any number
of preemptions: the Ready list stays in strictly increasing arrival-stamp
order, and the task the dispatcher selects has maximum priority and the least
arrival stamp among Ready tasks of that priority. -/
theorem scheduler_running_highest_fifo_spec (s : Sched) (h : Reachable s) :
    (∀ t ∈ s.ready, t.prio ≤ s.running.prio) ∧
    (s.running = idleTask → s.ready = []) ∧
    s.ready.Pairwise (fun a b => a.stamp < b.stamp) ∧
    (∀ u rest, selectNext s.ready = some (u, rest) →
      u.prio = maxPrioList s.ready ∧
      ∀ v ∈ s.ready, v.prio = u.prio → v = u ∨ u.stamp < v.stamp) := by
  obtain ⟨hrb, hio, hso, hsb, hrp, hro⟩ := reachable_schedInv h
  refine ⟨hrb, hio, hso, ?_⟩
  intro u rest hsel
  rw [selectNext] at hsel
  obtain ⟨hmem, hum, hsub⟩ := extractFirstMax_spec hsel
  exact ⟨hum, fun v hv hvp => extractFirstMax_first hso hsel hv hvp⟩

/-- C2 witness: the state reached by waking task 1 with priority 2 from the
initial state. -/
theorem scheduler_running_highest_fifo_spec_witness :
    (∀ t ∈ (wakeTask initSched ⟨1, 2, 0⟩).ready,
        t.prio ≤ (wakeTask initSched ⟨1, 2, 0⟩).running.prio) ∧
    ((wakeTask initSched ⟨1, 2, 0⟩).running = idleTask →
        (wakeTask initSched ⟨1, 2, 0⟩).ready = []) ∧
    (wakeTask initSched ⟨1, 2, 0⟩).ready.Pairwise
        (fun a b => a.stamp < b.stamp) ∧
    (∀ u rest, selectNext (wakeTask initSched ⟨1, 2, 0⟩).ready
          = some (u, rest) →
      u.prio = maxPrioList (wakeTask initSched ⟨1, 2, 0⟩).ready ∧
      ∀ v ∈ (wakeTask initSched ⟨1, 2, 0⟩).ready,
        v.prio = u.prio → v = u ∨ u.stamp < v.stamp) :=
  scheduler_running_highest_fifo_spec _
    (Reachable.wakeR Reachable.init (by decide))

/- ----------------------------------------------------------------------
   C6: setPriority (spec section 4.1).
   ---------------------------------------------------------------------- -/

/-- Removes the first task with the given identity from a list, returning it
with the remaining list. -/
def removeFirstById (tid : Nat) : List RTask → Option (RTask × List RTask)
  | [] => none
  | t :: ts =>
    if t.tid = tid then some (t, ts)
    else
      match removeFirstById tid ts with
      | some (u, rest) => some (u, t :: rest)
      | none => none

/-- Updates the recorded priority of the task with the given identity. -/
def bumpPrioById (tid p : Nat) (l : List RTask) : List RTask :=
  l.map (fun t => if t.tid = tid then { t with prio := p } else t)

/-- Modelled from the spec: setPriority(task, newPriority) (spec section 4.1).
If the task is Running, its priority changes; if the new priority is no longer
highest it yields immediately (it re-enters the Ready Set and a new Running
task is selected).  If the task is Ready, it is moved to the Ready sequence
for the new priority (re-entering at the tail, with a fresh arrival stamp).
If the task is Blocked, its recorded priority is updated so the new priority
governs this and all future arbitration. -/
def setPriority (s : Sched) (tid p : Nat) : Sched :=
  if s.running.tid = tid then
    if p < maxPrioList s.ready then
      dispatch (enqueueReady { s with running := { s.running with prio := p } }
        { s.running with prio := p })
    else { s with running := { s.running with prio := p } }
  else
    match removeFirstById tid s.ready with
    | some (t, rest) =>
      enqueueReady { s with ready := rest } { t with prio := p }
    | none =>
      { s with blocked := bumpPrioById tid p s.blocked }

theorem maxPrioList_append_single (l : List RTask) (r : RTask) :
    maxPrioList (l ++ [r]) = max (maxPrioList l) r.prio := by
  induction l with
  | nil => simp [maxPrioList]
  | cons a ts ih =>
    show max a.prio (maxPrioList (ts ++ [r]))
        = max (max a.prio (maxPrioList ts)) r.prio
    rw [ih]
    omega

theorem dispatch_eq_of_selectNext {s : Sched} {u : RTask} {rest : List RTask}
    (h : selectNext s.ready = some (u, rest)) :
    dispatch s = { s with running := u, ready := rest } := by
  unfold dispatch
  rw [h]

/-- C6: for every scheduler state, task identity and new priority:
if the task is Ready, setPriority moves it to the Ready sequence of the new
priority (at the tail, with a fresh arrival stamp) and the Running slot is
untouched; if the task is Running and the new priority is no longer the
highest among Ready tasks, the task yields immediately — a highest-priority
Ready task takes the Running slot while the demoted task re-enters the Ready
Set with the new priority; if the task is Blocked, its recorded priority
becomes the new one, governing this and all future arbitration. -/
theorem setPriority_spec (s : Sched) (tid p : Nat) :
    (s.running.tid ≠ tid →
      ∀ t rest, removeFirstById tid s.ready = some (t, rest) →
        (setPriority s tid p).ready
            = rest ++ [{ t with prio := p, stamp := s.nextStamp }] ∧
        (setPriority s tid p).running = s.running) ∧
    (s.running.tid = tid → p < maxPrioList s.ready →
      (setPriority s tid p).running.prio = maxPrioList s.ready ∧
      ∃ u ∈ (setPriority s tid p).ready, u.tid = tid ∧ u.prio = p) ∧
    (s.running.tid ≠ tid → removeFirstById tid s.ready = none →
      (setPriority s tid p).ready = s.ready ∧
      (setPriority s tid p).running = s.running ∧
      ∀ u ∈ (setPriority s tid p).blocked, u.tid = tid → u.prio = p) := by
  refine ⟨?_, ?_, ?_⟩
  · intro hrun t rest hrem
    simp only [setPriority, if_neg hrun, hrem]
    exact ⟨rfl, rfl⟩
  · intro hrun hlt
    have hready : (enqueueReady
        { s with running := { s.running with prio := p } }
        { s.running with prio := p }).ready
        = s.ready ++ [⟨s.running.tid, p, s.nextStamp⟩] := rfl
    have hM : maxPrioList (s.ready ++ [⟨s.running.tid, p, s.nextStamp⟩])
        = maxPrioList s.ready := by
      rw [maxPrioList_append_single]
      show max (maxPrioList s.ready) p = maxPrioList s.ready
      omega
    have hne : s.ready ++ [(⟨s.running.tid, p, s.nextStamp⟩ : RTask)] ≠ [] := by
      simp
    obtain ⟨t0, ht0, ht0m⟩ := exists_prio_eq_max hne
    obtain ⟨u, rest, hsel⟩ := extractFirstMax_of_mem ⟨t0, ht0, ht0m⟩
    have hselL : selectNext (enqueueReady
        { s with running := { s.running with prio := p } }
        { s.running with prio := p }).ready = some (u, rest) := by
      rw [hready, selectNext]
      exact hsel
    have hdisp := dispatch_eq_of_selectNext hselL
    have hum := (extractFirstMax_spec hsel).2.1
    have hrmem : (⟨s.running.tid, p, s.nextStamp⟩ : RTask)
        ∈ s.ready ++ [(⟨s.running.tid, p, s.nextStamp⟩ : RTask)] := by
      simp
    have hrne : (⟨s.running.tid, p, s.nextStamp⟩ : RTask).prio
        ≠ maxPrioList (s.ready ++ [⟨s.running.tid, p, s.nextStamp⟩]) := by
      show p ≠ maxPrioList (s.ready ++ [⟨s.running.tid, p, s.nextStamp⟩])
      rw [hM]
      omega
    have hrrest := extractFirstMax_keeps hsel hrmem hrne
    constructor
    · show (setPriority s tid p).running.prio = maxPrioList s.ready
      simp only [setPriority, if_pos hrun, if_pos hlt, hdisp]
      rw [hum, hM]
    · refine ⟨⟨s.running.tid, p, s.nextStamp⟩, ?_, hrun, rfl⟩
      simp only [setPriority, if_pos hrun, if_pos hlt, hdisp]
      exact hrrest
  · intro hrun hrem
    simp only [setPriority, if_neg hrun, hrem]
    refine ⟨trivial, trivial, ?_⟩
    intro u hu hut
    simp only [bumpPrioById, List.mem_map] at hu
    obtain ⟨v, hv, rfl⟩ := hu
    by_cases hvt : v.tid = tid
    · rw [if_pos hvt]
    · rw [if_neg hvt] at hut ⊢
      exact absurd hut hvt

/-- C6 witness: the three cases exercised at concrete states: a Ready task 4
demoted from a state running task 9; a Running task 2 lowering itself below a
Ready task of priority 4; a Blocked task 7 getting a new priority. -/
theorem setPriority_spec_witness :
    ((setPriority ⟨⟨9, 3, 0⟩, [⟨4, 1, 1⟩], [], 2⟩ 4 2).ready
        = [] ++ [⟨4, 2, 2⟩] ∧
      (setPriority ⟨⟨9, 3, 0⟩, [⟨4, 1, 1⟩], [], 2⟩ 4 2).running = ⟨9, 3, 0⟩) ∧
    ((setPriority ⟨⟨2, 5, 0⟩, [⟨3, 4, 1⟩], [], 2⟩ 2 1).running.prio
        = maxPrioList [⟨3, 4, 1⟩] ∧
      ∃ u ∈ (setPriority ⟨⟨2, 5, 0⟩, [⟨3, 4, 1⟩], [], 2⟩ 2 1).ready,
        u.tid = 2 ∧ u.prio = 1) ∧
    ((setPriority ⟨⟨2, 5, 0⟩, [], [⟨7, 1, 0⟩], 1⟩ 7 4).ready = [] ∧
      (setPriority ⟨⟨2, 5, 0⟩, [], [⟨7, 1, 0⟩], 1⟩ 7 4).running = ⟨2, 5, 0⟩ ∧
      ∀ u ∈ (setPriority ⟨⟨2, 5, 0⟩, [], [⟨7, 1, 0⟩], 1⟩ 7 4).blocked,
        u.tid = 7 → u.prio = 4) :=
  ⟨(setPriority_spec ⟨⟨9, 3, 0⟩, [⟨4, 1, 1⟩], [], 2⟩ 4 2).1 (by decide)
      ⟨4, 1, 1⟩ [] (by decide),
    (setPriority_spec ⟨⟨2, 5, 0⟩, [⟨3, 4, 1⟩], [], 2⟩ 2 1).2.1 (by decide)
      (by decide),
    (setPriority_spec ⟨⟨2, 5, 0⟩, [], [⟨7, 1, 0⟩], 1⟩ 7 4).2.2 (by decide)
      (by decide)⟩

/- ----------------------------------------------------------------------
   C8: mutex with priority inheritance (spec section 4.3).
   ---------------------------------------------------------------------- -/

/-- Modelled from the spec: outcome of a mutex take. -/
inductive TakeResult where
  | acquired
  | blockedOnMutex
deriving Repr, DecidableEq

/-- Modelled from the spec: outcome of a mutex give. -/
inductive GiveResult where
  | released
  | stillHeld
  | notHolder
deriving Repr, DecidableEq

/-- Modelled from the spec: the Mutex primitive (spec section 4.3); the
FreeRTOS semaphore/mutex implementation is missing from src/.  It records the
current holder (none when free), the holder's original priority recorded at
acquisition, the holder's current effective priority (raised by priority
inheritance), and the recursion depth for the recursive variant. -/
structure Mutex where
  holder : Option Nat
  basePrio : Nat
  effPrio : Nat
  depth : Nat
deriving Repr, DecidableEq

/-- Modelled from the spec: a free mutex. -/
def Mutex.freeM : Mutex := ⟨none, 0, 0, 0⟩

/-- Modelled from the spec: take (spec section 4.3).  A free mutex is
acquired, recording the caller as holder with its priority as both base and
effective priority and depth 1; the holder re-taking increments the recursion
depth; any other caller blocks, and if its priority is higher than the
holder's effective priority, the holder's effective priority is raised to it
(priority inheritance). -/
def Mutex.take (m : Mutex) (tid prio : Nat) : TakeResult × Mutex :=
  match m.holder with
  | none => (.acquired, ⟨some tid, prio, prio, 1⟩)
  | some h =>
    if h = tid then (.acquired, { m with depth := m.depth + 1 })
    else if m.effPrio < prio then (.blockedOnMutex, { m with effPrio := prio })
    else (.blockedOnMutex, m)

/-- Modelled from the spec: give (spec section 4.3).  Only the holder can
give; at depth 1 the mutex is truly released and the holder's priority is
restored to its recorded original priority; at greater depth only the
recursion depth decreases and the inherited effective priority stays.  The
third component is the holder's effective priority after the call. -/
def Mutex.give (m : Mutex) (tid : Nat) : GiveResult × Mutex × Nat :=
  match m.holder with
  | some h =>
    if h = tid then
      if m.depth ≤ 1 then (.released, Mutex.freeM, m.basePrio)
      else (.stillHeld, { m with depth := m.depth - 1 }, m.effPrio)
    else (.notHolder, m, m.effPrio)
  | none => (.notHolder, m, m.effPrio)

/-- C8: for every mutex held by task a and every task b of higher priority
than a's effective priority that blocks on take, a's effective priority is
raised to b's priority for the duration of the hold while a's recorded
original priority is unchanged; when a then gives at recursion depth 1 the
mutex is released and a's priority is restored to the original one; for the
recursive variant, a give at greater depth keeps the mutex held by a with the
inherited effective priority — the priority is restored only when the depth
returns to zero. -/
theorem mutex_priority_inheritance_spec (m : Mutex) (a tid pB : Nat)
    (hold : m.holder = some a) (hne : a ≠ tid) (hp : m.effPrio < pB) :
    (m.take tid pB).1 = TakeResult.blockedOnMutex ∧
    (m.take tid pB).2.effPrio = pB ∧
    (m.take tid pB).2.basePrio = m.basePrio ∧
    (m.take tid pB).2.holder = some a ∧
    ((m.take tid pB).2.depth = 1 →
      ((m.take tid pB).2.give a).1 = GiveResult.released ∧
      ((m.take tid pB).2.give a).2.1 = Mutex.freeM ∧
      ((m.take tid pB).2.give a).2.2 = m.basePrio) ∧
    (1 < (m.take tid pB).2.depth →
      ((m.take tid pB).2.give a).1 = GiveResult.stillHeld ∧
      ((m.take tid pB).2.give a).2.1.holder = some a ∧
      ((m.take tid pB).2.give a).2.1.effPrio = pB) := by
  have htake : m.take tid pB = (.blockedOnMutex, { m with effPrio := pB }) := by
    simp [Mutex.take, hold, hne, hp]
  rw [htake]
  refine ⟨rfl, rfl, rfl, hold, ?_, ?_⟩
  · intro hdep
    have hd1 : ({ m with effPrio := pB } : Mutex).depth ≤ 1 := by
      have h1 : ({ m with effPrio := pB } : Mutex).depth = 1 := hdep
      omega
    simp [Mutex.give, hold, hd1]
  · intro hdep
    have hd1 : ¬ ({ m with effPrio := pB } : Mutex).depth ≤ 1 := by
      have h1 : 1 < ({ m with effPrio := pB } : Mutex).depth := hdep
      omega
    simp [Mutex.give, hold, hd1]

/-- C8 witness: the spec example: task 1 with priority 1 holds the mutex at
depth 1; task 2 with priority 5 blocks on take; the holder's effective
priority becomes 5 and is restored to 1 on give. -/
theorem mutex_priority_inheritance_spec_witness :
    (Mutex.mk (some 1) 1 1 1).holder = some 1 ∧ (1 : Nat) ≠ 2 ∧
    (Mutex.mk (some 1) 1 1 1).effPrio < 5 ∧
    (((Mutex.mk (some 1) 1 1 1).take 2 5).1 = TakeResult.blockedOnMutex ∧
      ((Mutex.mk (some 1) 1 1 1).take 2 5).2.effPrio = 5 ∧
      ((Mutex.mk (some 1) 1 1 1).take 2 5).2.basePrio
          = (Mutex.mk (some 1) 1 1 1).basePrio ∧
      ((Mutex.mk (some 1) 1 1 1).take 2 5).2.holder = some 1 ∧
      (((Mutex.mk (some 1) 1 1 1).take 2 5).2.depth = 1 →
        ((((Mutex.mk (some 1) 1 1 1).take 2 5).2.give 1).1
            = GiveResult.released ∧
          (((Mutex.mk (some 1) 1 1 1).take 2 5).2.give 1).2.1 = Mutex.freeM ∧
          (((Mutex.mk (some 1) 1 1 1).take 2 5).2.give 1).2.2
            = (Mutex.mk (some 1) 1 1 1).basePrio)) ∧
      (1 < ((Mutex.mk (some 1) 1 1 1).take 2 5).2.depth →
        ((((Mutex.mk (some 1) 1 1 1).take 2 5).2.give 1).1
            = GiveResult.stillHeld ∧
          (((Mutex.mk (some 1) 1 1 1).take 2 5).2.give 1).2.1.holder
            = some 1 ∧
          (((Mutex.mk (some 1) 1 1 1).take 2 5).2.give 1).2.1.effPrio = 5))) :=
  ⟨by decide, by decide, by decide,
    mutex_priority_inheritance_spec (Mutex.mk (some 1) 1 1 1) 1 2 5
      (by decide) (by decide) (by decide)⟩

/- ----------------------------------------------------------------------
   C7: queue sets (spec section 4.4).
   ---------------------------------------------------------------------- -/

/-- Modelled from the spec: a Queue Set (spec sections 3 and 4.4); the
FreeRTOS queue-set implementation is missing from src/.  It holds the member
queues (keyed by member identity) and the internal notification queue of
"which member has data", used to wake a waiter with the identity of whichever
member became ready first. -/
structure QueueSet (α : Type) where
  members : List (Nat × Queue α)
  notif : Queue Nat
deriving Repr, DecidableEq

/-- Modelled from the spec: create(totalSlots): the internal notification
queue is sized to the sum of the member capacities. -/
def createSet (α : Type) (totalSlots : Nat) : QueueSet α :=
  ⟨[], Queue.emptyQ Nat totalSlots⟩

/-- Looks a member queue up by its identity. -/
def lookupMember {α : Type} : List (Nat × Queue α) → Nat → Option (Queue α)
  | [], _ => none
  | (i, q) :: rest, mid => if i = mid then some q else lookupMember rest mid

/-- Replaces the queue stored under the given member identity. -/
def updateMember {α : Type} :
    List (Nat × Queue α) → Nat → Queue α → List (Nat × Queue α)
  | [], _, _ => []
  | (i, q) :: rest, mid, q1 =>
    if i = mid then (i, q1) :: rest else (i, q) :: updateMember rest mid q1

/-- Modelled from the spec: errors of addMember (spec section 4.4). -/
inductive AddErr where
  | alreadyInSet
  | notEmpty
deriving Repr, DecidableEq

/-- Modelled from the spec: addMember (spec section 4.4): fails with
AlreadyInSet if the member identity already belongs to the set, and with
NotEmpty if the member already has buffered items. -/
def addMember {α : Type} (qs : QueueSet α) (mid : Nat) (q : Queue α) :
    Except AddErr (QueueSet α) :=
  match lookupMember qs.members mid with
  | some _ => .error .alreadyInSet
  | none =>
    if q.count ≠ 0 then .error .notEmpty
    else .ok { qs with members := qs.members ++ [(mid, q)] }

/-- Modelled from the spec: a non-blocking send to a member of a queue set
(spec sections 4.2 and 4.4).  On success the member identity is posted to the
internal notification queue, one pending notification per member write.
Returns none when the member identity is unknown. -/
def sendToMember {α : Type} (qs : QueueSet α) (mid : Nat) (a : α) :
    Option (SendResult × QueueSet α) :=
  match lookupMember qs.members mid with
  | none => none
  | some q =>
    match q.send a 0 false with
    | (.success, q1) =>
      some (.success,
        { members := updateMember qs.members mid q1,
          notif := (qs.notif.send mid 0 false).2 })
    | (r, _) => some (r, qs)

/-- Modelled from the spec: selectFromSet (spec section 4.4): takes the next
pending notification from the internal queue and returns the identity of that
member without consuming the member's data; the caller must subsequently
receive from that specific member. -/
def selectFromSet {α : Type} (qs : QueueSet α) : Option Nat × QueueSet α :=
  match qs.notif.receive 0 with
  | (.success mid, n1) => (some mid, { qs with notif := n1 })
  | _ => (none, qs)

theorem lookupMember_update {α : Type} (l : List (Nat × Queue α))
    (mid : Nat) (q q1 : Queue α) (h : lookupMember l mid = some q) :
    lookupMember (updateMember l mid q1) mid = some q1 := by
  induction l with
  | nil => simp [lookupMember] at h
  | cons p rest ih =>
    obtain ⟨i, qi⟩ := p
    by_cases hi : i = mid
    · simp [lookupMember, updateMember, hi]
    · simp only [lookupMember, updateMember, if_neg hi] at h ⊢
      exact ih h

/-- C7: for every Queue Set with a waiter blocked in selectFromSet (no
pending notification) and every member queue that is empty with free
capacity, a send that makes that member go from empty to non-empty leads
selectFromSet to return the identity of that specific member without
consuming the item: the item is still buffered in that member afterwards,
until the caller performs a receive on it, which yields exactly that item. -/
theorem queue_set_select_spec {α : Type} (qs : QueueSet α) (mid : Nat)
    (a : α) (q : Queue α)
    (hmem : lookupMember qs.members mid = some q)
    (hempty : q.count = 0) (hcap : 0 < q.capacity)
    (hnempty : qs.notif.count = 0) (hncap : 0 < qs.notif.capacity) :
    ∃ qs1, sendToMember qs mid a = some (SendResult.success, qs1) ∧
      (selectFromSet qs1).1 = some mid ∧
      lookupMember (selectFromSet qs1).2.members mid = some ⟨q.capacity, [a]⟩ ∧
      ((⟨q.capacity, [a]⟩ : Queue α).receive 0).1 = RecvResult.success a := by
  have hitems : q.items = [] := List.length_eq_zero.mp hempty
  have hsend : q.send a 0 false = (.success, ⟨q.capacity, [a]⟩) := by
    have hlt : q.count < q.capacity := by omega
    simp [Queue.send, hlt, hitems]
  have hnitems : qs.notif.items = [] := List.length_eq_zero.mp hnempty
  have hnsend : qs.notif.send mid 0 false
      = (.success, ⟨qs.notif.capacity, [mid]⟩) := by
    have hlt : qs.notif.count < qs.notif.capacity := by omega
    simp [Queue.send, hlt, hnitems]
  refine ⟨{ members := updateMember qs.members mid ⟨q.capacity, [a]⟩,
            notif := ⟨qs.notif.capacity, [mid]⟩ }, ?_, ?_, ?_, ?_⟩
  · simp [sendToMember, hmem, hsend, hnsend]
  · simp [selectFromSet, Queue.receive]
  · simp only [selectFromSet, Queue.receive]
    exact lookupMember_update qs.members mid q ⟨q.capacity, [a]⟩ hmem
  · simp [Queue.receive]

/-- C7 witness: a set with one empty member queue 3 of capacity 2 and an
empty notification queue of capacity 2; sending 42 to member 3 makes
selectFromSet report member 3 while the item stays in the member. -/
theorem queue_set_select_spec_witness :
    lookupMember (QueueSet.mk [(3, Queue.emptyQ Nat 2)]
        (Queue.emptyQ Nat 2)).members 3 = some (Queue.emptyQ Nat 2) ∧
    (Queue.emptyQ Nat 2).count = 0 ∧ 0 < (Queue.emptyQ Nat 2).capacity ∧
    (∃ qs1, sendToMember (QueueSet.mk [(3, Queue.emptyQ Nat 2)]
          (Queue.emptyQ Nat 2)) 3 42 = some (SendResult.success, qs1) ∧
      (selectFromSet qs1).1 = some 3 ∧
      lookupMember (selectFromSet qs1).2.members 3
          = some ⟨(Queue.emptyQ Nat 2).capacity, [42]⟩ ∧
      ((⟨(Queue.emptyQ Nat 2).capacity, [42]⟩ : Queue Nat).receive 0).1
          = RecvResult.success 42) :=
  ⟨by decide, by decide, by decide,
    queue_set_select_spec (QueueSet.mk [(3, Queue.emptyQ Nat 2)]
        (Queue.emptyQ Nat 2)) 3 42 (Queue.emptyQ Nat 2)
      (by decide) (by decide) (by decide) (by decide) (by decide)⟩

/- ----------------------------------------------------------------------
   Demo applications: main functions embedded from the C sources.
   ---------------------------------------------------------------------- -/

/-- Outcome of a single-queue demo main: whether main hangs in the error
loop, how many tasks were created by xTaskCreate before the end of main, and
whether vTaskStartScheduler was reached. -/
structure DemoMainOutcome where
  hangs : Bool
  tasksCreated : Nat
  schedulerStarted : Bool
deriving Repr, DecidableEq

/-- Embedded from src/workspace/15_Sync_Using_Queues/Core/Src/main.c, main
(lines 47 to 101).  The parameter is the result of the xQueueCreate call
(none for NULL).  A NULL result makes main print an error and spin forever
before any xTaskCreate call; otherwise the three tasks are created and the
scheduler is started. -/
def syncUsingQueuesMain (xQueueCreateResult : Option Nat) : DemoMainOutcome :=
  match xQueueCreateResult with
  | none => ⟨true, 0, false⟩
  | some _ => ⟨false, 3, true⟩

/-- Embedded from src/workspace/16_Send_Complex_Data_With_Queues/Core/Src/
main.c, the complex-data demo main (lines 61 to 115).  Same structure: a NULL
xQueueCreate result hangs before any xTaskCreate; otherwise the three tasks
are created and the scheduler started. -/
def sendComplexDataMain (xQueueCreateResult : Option Nat) : DemoMainOutcome :=
  match xQueueCreateResult with
  | none => ⟨true, 0, false⟩
  | some _ => ⟨false, 3, true⟩

/-- C10: in both queue demos, if xQueueCreate returns NULL, main prints an
error and enters an infinite loop before any task is created or the scheduler
is started, so no task ever performs a send or receive on a null queue handle
created by main's first xQueueCreate: zero tasks are created and the
scheduler never starts. -/
theorem null_queue_hang_spec :
    (syncUsingQueuesMain none).hangs = true ∧
    (syncUsingQueuesMain none).tasksCreated = 0 ∧
    (syncUsingQueuesMain none).schedulerStarted = false ∧
    (sendComplexDataMain none).hangs = true ∧
    (sendComplexDataMain none).tasksCreated = 0 ∧
    (sendComplexDataMain none).schedulerStarted = false := by
  decide

/-- Outcome of the queue-set demo main: hang in the first or second error
loop, or proceed to xQueueAddToSet and vTaskStartScheduler; the started
outcome records the two handles passed to xQueueAddToSet. -/
inductive QueueSetMainOutcome where
  | hangAfterQueue1
  | hangAfterQueue2
  | started (addToSetArg1 : Option Nat) (addToSetArg2 : Option Nat)
deriving Repr, DecidableEq

/-- Embedded from src/workspace/16_Send_Complex_Data_With_Queues/Core/Src/
main.c, the queue-set demo main (lines 434 to 508).  The parameters are the
results of the two xQueueCreate calls.  The null check after creating xQueue2
tests xQueue1 again — line 459 of the source reads "if (NULL == xQueue1)" —
which is embedded here exactly as written. -/
def queueSetDemoMain (xQueue1 xQueue2 : Option Nat) : QueueSetMainOutcome :=
  if xQueue1 = none then .hangAfterQueue1
  else if xQueue1 = none then .hangAfterQueue2
  else .started xQueue1 xQueue2

/-- C9: in the queue-set demo, the null check after creating the second queue
tests the first queue's handle instead of xQueue2: for every input where
creating xQueue2 fails (returns NULL) while xQueue1 succeeded, main does not
enter the error hang and proceeds to pass the NULL xQueue2 handle to
xQueueAddToSet and start the scheduler. -/
theorem queue_set_null_check_bug_spec (h : Nat) :
    queueSetDemoMain (some h) none
      = QueueSetMainOutcome.started (some h) none := by
  simp [queueSetDemoMain]

/-- C1 witness: the invariant evaluated after one send on a queue of
capacity 2. -/
theorem queue_count_invariant_spec_witness :
    0 ≤ (runOps (Queue.emptyQ Nat 2) [QOp.sendOp 5 0 false]).count ∧
    (runOps (Queue.emptyQ Nat 2) [QOp.sendOp 5 0 false]).count ≤ 2 ∧
    (∀ (a w : Nat) (tf : Bool),
      ((runOps (Queue.emptyQ Nat 2) [QOp.sendOp 5 0 false]).send a w
          tf).1.declinedOrBlocked = true
        ↔ (runOps (Queue.emptyQ Nat 2) [QOp.sendOp 5 0 false]).count = 2) ∧
    (∀ w : Nat,
      ((runOps (Queue.emptyQ Nat 2)
          [QOp.sendOp 5 0 false]).receive w).1.declinedOrBlocked = true
        ↔ (runOps (Queue.emptyQ Nat 2) [QOp.sendOp 5 0 false]).count = 0) :=
  queue_count_invariant_spec 2 [QOp.sendOp 5 0 false]

/-- C9 witness: the concrete input where xQueue1 creation succeeded with
handle 7 and xQueue2 creation returned NULL. -/
theorem queue_set_null_check_bug_spec_witness :
    queueSetDemoMain (some 7) none
      = QueueSetMainOutcome.started (some 7) none :=
  queue_set_null_check_bug_spec 7
